import Mathlib

/-!
Verification of the cozmonaut service framework against its
natural-language specification.  All definitions are shallow embeddings
of the C sources: `src/service.c` and `src/service.h` (the generic
service registry), `src/service/python.c` (the Python runtime host
service, its output line buffers and its exception bookkeeping),
`src/service/console.c` (the console service) and `src/main.c` (the
driver).  Machine status codes are modelled as `Nat` (`0` = success,
`1` = failure, exactly the values the C functions return); `NULL`
pointers are modelled as `none`.
-/

namespace Cozmonaut

/-- Dispatch interface implemented by a concrete service
(`struct service_iface`, src/service.h).  The `on_load` / `on_unload` /
`on_start` / `on_stop` callbacks of the C struct return status codes
that `service.c` only ever passes to a warning log and never branches
on, so the registry model keeps just the dispatch-table lookup:
`proc fn` is the function pointer returned by the service's ordinal
lookup, with `none` standing for a `NULL` function pointer.  `P` is the
type used to name the service's procedures. -/
structure ServiceIface (P : Type) where
  proc : Int → Option P

/-- The observable conditions of the `svc->state` pointer.
src/service.c allocates it in `service_load` (line 29) and frees it in
`service_unload` (line 63) **without ever assigning `NULL` to it
afterwards**, so after an unload the pointer is non-`NULL` but
dangling: the registry's `if (svc->state)` checks still see it as
allocated, while reading `svc->state->started` through it, or freeing
it a second time, is undefined behaviour. -/
inductive SvcState : Type
  | null
  | alive (started : Bool)
  | dangling
deriving DecidableEq, Repr

/-- A service (`struct service`, src/service.h): the optional capability
interface and the `state` pointer.  `SvcState.null` models a `NULL`
`svc->state`; `SvcState.alive started` models an allocated
`struct service_state` carrying its `started` flag (src/service.c
lines 13-16); `SvcState.dangling` models the freed-but-non-`NULL`
pointer `service_unload` leaves behind. -/
structure Service (P : Type) where
  iface : Option (ServiceIface P)
  state : SvcState

/-- `service_load` (src/service.c lines 18-42): fails with code 1 when
`svc->state` is non-`NULL` — which, because `service_unload` never
nulls the freed pointer, includes the dangling state after an unload —
otherwise allocates state with `started = 0` and returns 0.  The
function only inspects the pointer itself, so it is defined even on a
dangling state.  A nonzero `on_load` callback code is only logged as a
warning and does not affect the transition or the result. -/
def service_load {P : Type} (svc : Service P) : Service P × Nat :=
  match svc.state with
  | SvcState.null => ({ svc with state := SvcState.alive false }, 0)
  | SvcState.alive _ => (svc, 1)
  | SvcState.dangling => (svc, 1)

/-- `service_unload` (src/service.c lines 44-67): fails with code 1 when
`svc->state` is `NULL`; otherwise calls `free(svc->state)` — leaving
the pointer dangling, line 63 never assigns `NULL` — and returns 0.
On an already-dangling state the `free` is a double free: undefined
behaviour, modelled as `none`.  The `on_unload` callback code is only
logged.  Note the C code does not check the `started` flag before
unloading. -/
def service_unload {P : Type} (svc : Service P) :
    Option (Service P × Nat) :=
  match svc.state with
  | SvcState.null => some (svc, 1)
  | SvcState.alive _ => some ({ svc with state := SvcState.dangling }, 0)
  | SvcState.dangling => none

/-- `service_start` (src/service.c lines 69-99): fails with code 1 when
`svc->state` is `NULL` or when already started; otherwise sets the
`started` flag and returns 0.  On a dangling state the read of
`svc->state->started` (line 80) touches freed memory: undefined
behaviour, modelled as `none`.  The `on_start` callback code is only
logged. -/
def service_start {P : Type} (svc : Service P) :
    Option (Service P × Nat) :=
  match svc.state with
  | SvcState.null => some (svc, 1)
  | SvcState.alive true => some (svc, 1)
  | SvcState.alive false =>
    some ({ svc with state := SvcState.alive true }, 0)
  | SvcState.dangling => none

/-- `service_stop` (src/service.c lines 101-130): fails with code 1 when
`svc->state` is `NULL` or when not started; otherwise clears the
`started` flag and returns 0.  On a dangling state the read of
`svc->state->started` (line 112) touches freed memory: undefined
behaviour, modelled as `none`.  The `on_stop` callback code is only
logged. -/
def service_stop {P : Type} (svc : Service P) :
    Option (Service P × Nat) :=
  match svc.state with
  | SvcState.null => some (svc, 1)
  | SvcState.alive false => some (svc, 1)
  | SvcState.alive true =>
    some ({ svc with state := SvcState.alive false }, 0)
  | SvcState.dangling => none

/-- `service_call` (src/service.c lines 132-158): fails with code 1 when
not loaded or not started; on a dangling state the started-flag read
(line 141) touches freed memory — undefined behaviour, `none`.  When
the service declares no capability interface the call silently succeeds
with code 0.  Otherwise the ordinal is resolved through
`svc->iface->proc(fn)` and the resulting function pointer is invoked
**without a `NULL` check**; `none` also models that undefined call
through `NULL`.  A nonzero code from the invoked procedure is only
logged as a warning; the call itself returns 0. -/
def service_call {P : Type} (svc : Service P) (fn : Int) :
    Option (Service P × Nat) :=
  match svc.state with
  | SvcState.null => some (svc, 1)
  | SvcState.dangling => none
  | SvcState.alive false => some (svc, 1)
  | SvcState.alive true =>
    match svc.iface with
    | none => some (svc, 0)
    | some i =>
      match i.proc fn with
      | none => none
      | some _ => some (svc, 0)

/-- A registry operation applied to a single service, as in the spec's
state-machine conformance property.  `call` models `service_call` with a
mapped ordinal (the dispatched procedure exists; the `NULL`-pointer
hazard of unmapped ordinals is modelled separately by `service_call`
and `python_proc`). -/
inductive RegOp : Type
  | load
  | unload
  | start
  | stop
  | call
deriving DecidableEq, Repr

/-- One registry step (dispatch on the operation); `none` is undefined
behaviour (a freed-memory read or double free).  The `call` case is the
registry-visible part of `service_call` for a mapped ordinal: code 1
unless loaded and started, code 0 otherwise, state unchanged
(src/service.c lines 132-158). -/
def regStep {P : Type} (svc : Service P) :
    RegOp → Option (Service P × Nat)
  | .load => some (service_load svc)
  | .unload => service_unload svc
  | .start => service_start svc
  | .stop => service_stop svc
  | .call =>
    match svc.state with
    | SvcState.null => some (svc, 1)
    | SvcState.dangling => none
    | SvcState.alive false => some (svc, 1)
    | SvcState.alive true => some (svc, 0)

/-- State of the service after a sequence of registry operations, or
`none` as soon as one of them exhibits undefined behaviour. -/
def runSeq {P : Type} (svc : Service P) :
    List RegOp → Option (Service P)
  | [] => some svc
  | op :: ops =>
    match regStep svc op with
    | none => none
    | some s1 => runSeq s1.1 ops

/-- Status code returned by the operation at position `k` of the
sequence: `some 0` when `k` is out of range, `none` when the run up to
and including position `k` is undefined. -/
def resAt {P : Type} (svc : Service P) (ops : List RegOp) (k : Nat) :
    Option Nat :=
  match ops[k]? with
  | none => some 0
  | some op =>
    match runSeq svc (ops.take k) with
    | none => none
    | some st => (regStep st op).map Prod.snd

/-- The sequence refuting the frozen C5: `load, start, stop, start`. -/
def c5seq : List RegOp := [RegOp.load, RegOp.start, RegOp.stop, RegOp.start]

/-!
### Output Line Buffer

Shallow embedding of the `cstdout` write buffer of
src/service/python.c (lines 403-491).  The `cstderr` buffer (lines
525-613) runs the identical algorithm with a different log level.  The
buffer is the pair of C globals `cstdout_buf` / `cstdout_buf_len`,
modelled as `Option (List Char)` — `none` is a `NULL` buffer pointer,
`some t` an allocated buffer holding the C string `t`.  Calls to
`LOGI` are modelled by collecting the logged records in a list.
-/

/-- Split at the first newline character, mirroring
`strchr(string, 0x0a)` in `cstdout_write` (src/service/python.c line
437): `none` when no newline occurs (`strchr` returns `NULL`),
otherwise the text before the first newline paired with the text after
it. -/
def strchr_nl : List Char → Option (List Char × List Char)
  | [] => none
  | c :: cs =>
    if c = '\n' then some ([], cs)
    else
      match strchr_nl cs with
      | none => none
      | some pq => some (c :: pq.1, pq.2)

/-- The intermediary-line loop of `cstdout_write` (src/service/python.c
lines 458-470 together with the trailing-buffer step at lines 472-478):
the complete newline-terminated lines of a string, each logged as its
own record, paired with the trailing text after the last newline, which
becomes the new buffer contents. -/
def splitLines : List Char → List (List Char) × List Char
  | [] => ([], [])
  | c :: cs =>
    if c = '\n' then
      ([] :: (splitLines cs).1, (splitLines cs).2)
    else
      match splitLines cs with
      | ([], t) => ([], c :: t)
      | (l :: ls, t) => ((c :: l) :: ls, t)

/-- `cstdout_write` (src/service/python.c lines 425-491).  Returns the
new buffer state together with the records logged by this write.  When
the input has no newline it is appended to the buffer (the `realloc`
branch, lines 480-487; note `realloc` leaves the buffer allocated even
for an empty input).  Otherwise the buffered text concatenated with the
first line is logged, the buffer is freed (`NULL`), and — only if text
remains after the first newline — the remaining complete lines are
logged and the trailing text is buffered (`line_begin` is always
non-`NULL`, so this happens even when the trailing text is empty). -/
def cstdout_write (buf : Option (List Char)) (s : List Char) :
    Option (List Char) × List (List Char) :=
  match strchr_nl s with
  | none => (some (buf.getD [] ++ s), [])
  | some pq =>
    let rec1 := buf.getD [] ++ pq.1
    if pq.2 = [] then (none, [rec1])
    else ((some (splitLines pq.2).2), rec1 :: (splitLines pq.2).1)

/-- `cstdout_flush` (src/service/python.c lines 409-423): when the
buffer pointer is non-`NULL` — including when it holds the empty
string — its contents are logged as one record and the buffer is freed;
a `NULL` buffer logs nothing. -/
def cstdout_flush (buf : Option (List Char)) :
    Option (List Char) × List (List Char) :=
  match buf with
  | none => (none, [])
  | some t => (none, [t])

/-- Apply a sequence of writes, collecting all logged records in
order. -/
def runWrites (buf : Option (List Char)) :
    List (List Char) → Option (List Char) × List (List Char)
  | [] => (buf, [])
  | w :: ws =>
    ((runWrites (cstdout_write buf w).1 ws).1,
      (cstdout_write buf w).2 ++ (runWrites (cstdout_write buf w).1 ws).2)

/-- All records emitted by a sequence of writes to a fresh buffer
followed by one flush. -/
def emittedRecords (ws : List (List Char)) : List (List Char) :=
  (runWrites none ws).2 ++ (cstdout_flush (runWrites none ws).1).2

/-- The record list a string splits into: the complete lines followed
by the trailing segment (possibly empty).  This is exactly splitting on
newline characters; see `splitNl_eq_splitOn`. -/
def splitNl (s : List Char) : List (List Char) :=
  (splitLines s).1 ++ [(splitLines s).2]

/-- Whether a write's first newline is its final character (text ends
right after the first newline: the address test at
src/service/python.c line 457).  After such a write the buffer pointer
is left `NULL`. -/
def endsAtFirstNewline (w : List Char) : Bool :=
  match strchr_nl w with
  | none => false
  | some pq => pq.2.isEmpty

/-- The final-flush record is suppressed exactly when no write occurred
or the last write ends at its first newline. -/
def tailSuppressed (ws : List (List Char)) : Bool :=
  match ws.getLast? with
  | none => true
  | some w => endsAtFirstNewline w

/-!
### Runtime Host Service (Python)

Shallow embedding of src/service/python.c.  The hosted interpreter is
an opaque black box: each entry into it either succeeds or raises an
exception, so interpreter actions take an oracle argument of type
`Option PyExc` (`none` = ran to completion, `some e` = raised `e`).
The Execution Context Token is the `PyThreadState` juggled by
`PyEval_RestoreThread` / `PyEval_SaveThread`: `tokenParked = true`
models the token parked in `python__thread_state` with no thread inside
the interpreter, `tokenParked = false` models a thread holding it.
-/

/-- A Python exception, carried as the rendered diagnostic strings of
its type, value and traceback (the representations produced at
src/service/python.c lines 666-877; rendering is modelled as total). -/
structure PyExc where
  ty : String
  val : String
  tb : String
deriving DecidableEq, Repr

/-- The operations of the `service_python_op` enum
(src/service/python.h lines 10-19). -/
inductive PyOp : Type
  | friends_list
  | friends_remove
  | interact
deriving DecidableEq, Repr

/-- The driver-code snippets of src/service/python.c lines 20-87, kept
abstract (their text is opaque script input per the spec). -/
inductive DriverCode : Type
  | op_friends_list_exec
  | op_friends_list_stop
  | op_friends_remove_exec
  | op_friends_remove_stop
  | op_interact_exec
  | op_interact_stop
  | auto_enable
  | auto_disable
  | manual_advance
  | manual_return
  | manual_req_diversion_faces
  | manual_req_diversion_converse
  | manual_req_diversion_wander
deriving DecidableEq, Repr

/-- Host-visible state of the Python service: the token slot, the
selected-operation globals `python__op` / `python__op_selected`
(src/service/python.c lines 89-93), the interpreter's pending
exception, the error log, and the persistent `__main__` namespace
modelled as the list of snippets successfully executed against it. -/
structure HostState where
  tokenParked : Bool
  opSelected : Bool
  selectedOp : PyOp
  pending : Option PyExc
  errorLog : List String
  ns : List DriverCode
deriving DecidableEq, Repr

/-- `python__handle_exception` (src/service/python.c lines 648-895): if
no exception is pending, do nothing; otherwise fetch it — clearing it
from the interpreter — and try to render type, value and traceback into
three diagnostic strings.  Rendering is itself fallible: each of the
nine render/encode steps (`PyObject_Repr`,
`PyUnicode_AsEncodedString`, `PyBytes_AsString`, lines 666-870) may
raise a new exception, in which case the function handles that new
exception recursively and returns early — the original bundle is
**never** logged on those paths.  Only when every step succeeds are the
three strings logged as an error bundle.  `chain` is the rendering
oracle: the list of exceptions raised by successive failing render
steps, empty when rendering succeeds outright. -/
def python__handle_exception (st : HostState) (chain : List PyExc) :
    HostState :=
  match st.pending with
  | none => st
  | some e =>
    match chain with
    | [] =>
      { st with
          pending := none
          errorLog := st.errorLog ++ [e.ty, e.val, e.tb] }
    | e2 :: rest =>
      python__handle_exception { st with pending := some e2 } rest

/-- One snippet execution of an operation's exec stage
(`python__op_friends_list_exec` / `python__op_friends_remove_exec` /
`python__op_interact_exec`, src/service/python.c lines 958-1193): every
failure of the interpreter steps (importing `__main__`, creating and
publishing `args`, running the driver code) is passed to
`python__handle_exception` and swallowed — the helpers return `void` —
and on success the snippet has run against the persistent namespace. -/
def python__run_exec_snippet (st : HostState) (code : DriverCode)
    (exc : Option PyExc) (chain : List PyExc) : HostState :=
  match exc with
  | some e => python__handle_exception { st with pending := some e } chain
  | none => { st with ns := st.ns ++ [code] }

/-- `python__proc_op_exec` (src/service/python.c lines 1228-1261): fail
with code 1 — before touching the token or the interpreter — when an
operation is already selected; otherwise record the selection, acquire
the token, dispatch the operation's exec snippet (which swallows its
own exceptions), park the token, and return 0. -/
def python__proc_op_exec (st : HostState) (op : PyOp)
    (exc : Option PyExc) (chain : List PyExc) : HostState × Nat :=
  if st.opSelected then (st, 1)
  else
    let st1 := { st with selectedOp := op, opSelected := true }
    let st2 := { st1 with tokenParked := false }
    let st3 :=
      match op with
      | .friends_list =>
        python__run_exec_snippet st2 .op_friends_list_exec exc chain
      | .friends_remove =>
        python__run_exec_snippet st2 .op_friends_remove_exec exc chain
      | .interact =>
        python__run_exec_snippet st2 .op_interact_exec exc chain
    ({ st3 with tokenParked := true }, 0)

/-- `python__proc_auto_enable` (src/service/python.c lines 1263-1297):
acquire the token, import `__main__`, get its dictionary, run the
auto-enable snippet, park the token and return 0.  Each of the three
interpreter steps takes an oracle; on failure the pending exception is
handled (logged and cleared) and the procedure returns 1 — note that
these early returns do **not** park the token. -/
def python__proc_auto_enable (st : HostState)
    (mainExc dictExc runExc : Option PyExc) (chain : List PyExc) :
    HostState × Nat :=
  let st1 := { st with tokenParked := false }
  match mainExc with
  | some e =>
    (python__handle_exception { st1 with pending := some e } chain, 1)
  | none =>
    match dictExc with
    | some e =>
      (python__handle_exception { st1 with pending := some e } chain, 1)
    | none =>
      match runExc with
      | some e =>
        (python__handle_exception { st1 with pending := some e } chain, 1)
      | none =>
        ({ st1 with
            ns := st1.ns ++ [DriverCode.auto_enable]
            tokenParked := true }, 0)

/-- The procedures named by the dispatch table of the Python service
(src/service/python.c lines 1663-1684). -/
inductive PyProc : Type
  | op_exec
  | auto_enable
  | auto_disable
  | manual_advance
  | manual_return
  | manual_req_diversion_faces
  | manual_req_diversion_converse
  | manual_req_diversion_wander
deriving DecidableEq, Repr

/-- Ordinal of `service_python_fn_op_exec` (src/service/python.h). -/
def service_python_fn_op_exec : Int := 0

/-- Ordinal of `service_python_fn_interact_auto_enable`. -/
def service_python_fn_interact_auto_enable : Int := 1

/-- Ordinal of `service_python_fn_interact_auto_disable`. -/
def service_python_fn_interact_auto_disable : Int := 2

/-- Ordinal of `service_python_fn_interact_test_low_battery`. -/
def service_python_fn_interact_test_low_battery : Int := 3

/-- Ordinal of `service_python_fn_interact_manual_advance`. -/
def service_python_fn_interact_manual_advance : Int := 4

/-- Ordinal of `service_python_fn_interact_manual_return`. -/
def service_python_fn_interact_manual_return : Int := 5

/-- Ordinal of `service_python_fn_interact_manual_req_diversion_faces`. -/
def service_python_fn_interact_manual_req_diversion_faces : Int := 6

/-- Ordinal of
`service_python_fn_interact_manual_req_diversion_converse`. -/
def service_python_fn_interact_manual_req_diversion_converse : Int := 7

/-- Ordinal of
`service_python_fn_interact_manual_req_diversion_wander`. -/
def service_python_fn_interact_manual_req_diversion_wander : Int := 8

/-- The ordinal lookup `proc` of the Python service
(src/service/python.c lines 1663-1684): a switch over the ordinals with
**no case for `service_python_fn_interact_test_low_battery`**, falling
through to `return NULL` for it and for every ordinal outside the
enum. -/
def python_proc (fn : Int) : Option PyProc :=
  if fn = service_python_fn_op_exec then some .op_exec
  else if fn = service_python_fn_interact_auto_enable then some .auto_enable
  else if fn = service_python_fn_interact_auto_disable then
    some .auto_disable
  else if fn = service_python_fn_interact_manual_advance then
    some .manual_advance
  else if fn = service_python_fn_interact_manual_return then
    some .manual_return
  else if fn = service_python_fn_interact_manual_req_diversion_faces then
    some .manual_req_diversion_faces
  else if fn = service_python_fn_interact_manual_req_diversion_converse then
    some .manual_req_diversion_converse
  else if fn = service_python_fn_interact_manual_req_diversion_wander then
    some .manual_req_diversion_wander
  else none

/-- The Python service's interface (src/service/python.c lines
1686-1692). -/
def pythonIface : ServiceIface PyProc := ⟨python_proc⟩

/-- `SERVICE_PYTHON` (src/service/python.c lines 1694-1698): the Python
service definition, initially with no allocated state. -/
def SERVICE_PYTHON : Service PyProc := ⟨some pythonIface, SvcState.null⟩

/-- The registry state of `SERVICE_PYTHON` when src/main.c line 59
executes: `main` has called `service_load` then `service_start`
(lines 30 and 33), and the intervening `service_call`s do not change
registry state; `c9_null_proc_reachable` proves that running `load`
then `start` on `SERVICE_PYTHON` indeed produces this state. -/
def mainPythonService : Service PyProc :=
  ⟨some pythonIface, SvcState.alive true⟩

/-!
### Console Service

Shallow embedding of the interrupted flag of src/service/console.c.
The flag is the global `console__interrupted`; the input thread's line
handler and the get-and-clear dispatch procedure are the only accesses
modelled (the claims concern their interleaving as a sequence of
events).
-/

/-- `console__handle_input` (src/service/console.c lines 49-54): the
literal line "stop" sets the interrupted flag; every other line leaves
it unchanged. -/
def console__handle_input (flag : Bool) (input : String) : Bool :=
  if input = "stop" then true else flag

/-- `console__proc_interrupted` (src/service/console.c lines 86-91):
write the current flag to the output argument and reset the flag. -/
def console__proc_interrupted (flag : Bool) : Bool × Bool :=
  (flag, false)

/-- An event touching the interrupted flag: the input thread handling
one line, or a dispatched get-and-clear call. -/
inductive ConsoleEvent : Type
  | input (line : String)
  | readClear
deriving DecidableEq, Repr

/-- The interrupted flag after a sequence of events. -/
def consoleFlag (flag : Bool) : List ConsoleEvent → Bool
  | [] => flag
  | .input l :: es => consoleFlag (console__handle_input flag l) es
  | .readClear :: es => consoleFlag (console__proc_interrupted flag).2 es

/-- The value written to the output argument by a get-and-clear call at
position `m` of the event sequence (the flag reached after the events
before it, starting from the initial cleared flag). -/
def interruptedOutputAt (es : List ConsoleEvent) (m : Nat) : Bool :=
  (console__proc_interrupted (consoleFlag false (es.take m))).1

/-!
### Allocation size of the newline branch of the write

The newline branch of `cstdout_write` (src/service/python.c lines
437-443, and identically `cstderr_write` at lines 559-565) computes
`buf_len = cstdout_buf_len + (nl - string)` and allocates
`buf_len + 1` bytes, then copies `cstdout_buf_len` bytes of buffered
text followed by the **entire** incoming string of `string_len` bytes.
The byte counts are modelled as naturals taken straight from those
expressions.
-/

/-- Bytes allocated by `malloc(buf_len + 1)` at src/service/python.c
line 440: the buffered length plus the offset of the first newline
(`nl - string`) plus one. -/
def cstdout_newline_alloc (buf_len first_nl_offset : Nat) : Nat :=
  buf_len + first_nl_offset + 1

/-- Bytes written by the two `memcpy` calls at src/service/python.c
lines 441-442: `cstdout_buf_len` bytes of buffered text at offset 0
followed by `string_len` bytes of the incoming string at offset
`cstdout_buf_len`. -/
def cstdout_newline_copy_extent (buf_len string_len : Nat) : Nat :=
  buf_len + string_len

/-- C1 (code evaluated at the failing input): `load, start, stop,
unload` from the Unloaded state returns 0 at every step, but the unload
leaves `svc->state` dangling — `free` at src/service.c line 63 is never
followed by a `NULL` assignment — so the service is *not* back in the
state the registry treats as Unloaded: the second, identical `load`
sees allocated state (src/service.c line 22) and returns 1 "Already
loaded", and a subsequent `start` would read the freed `started` flag
(undefined).  Callback return codes never influence registry results,
so the interface is arbitrary. -/
theorem c1_roundtrip_reload_fails {P : Type} (i : Option (ServiceIface P)) :
    resAt ⟨i, SvcState.null⟩
      [RegOp.load, RegOp.start, RegOp.stop, RegOp.unload, RegOp.load] 0
      = some 0 ∧
    resAt ⟨i, SvcState.null⟩
      [RegOp.load, RegOp.start, RegOp.stop, RegOp.unload, RegOp.load] 1
      = some 0 ∧
    resAt ⟨i, SvcState.null⟩
      [RegOp.load, RegOp.start, RegOp.stop, RegOp.unload, RegOp.load] 2
      = some 0 ∧
    resAt ⟨i, SvcState.null⟩
      [RegOp.load, RegOp.start, RegOp.stop, RegOp.unload, RegOp.load] 3
      = some 0 ∧
    runSeq ⟨i, SvcState.null⟩
      [RegOp.load, RegOp.start, RegOp.stop, RegOp.unload]
      = some ⟨i, SvcState.dangling⟩ ∧
    resAt ⟨i, SvcState.null⟩
      [RegOp.load, RegOp.start, RegOp.stop, RegOp.unload, RegOp.load] 4
      = some 1 ∧
    resAt ⟨i, SvcState.null⟩
      [RegOp.load, RegOp.start, RegOp.stop, RegOp.unload, RegOp.load,
        RegOp.start] 5
      = none :=
  ⟨rfl, rfl, rfl, rfl, rfl, rfl, rfl⟩

theorem runSeq_append {P : Type} (svc : Service P) (xs ys : List RegOp) :
    runSeq svc (xs ++ ys) = (runSeq svc xs).bind fun mid => runSeq mid ys := by
  induction xs generalizing svc with
  | nil => rfl
  | cons op xs ih =>
    cases hstep : regStep svc op with
    | none => simp [runSeq, hstep]
    | some s1 => simp [runSeq, hstep, ih]

theorem runSeq_singleton {P : Type} (svc : Service P) (op : RegOp) :
    runSeq svc [op] = (regStep svc op).map Prod.fst := by
  cases hstep : regStep svc op with
  | none => simp [runSeq, hstep]
  | some s1 => simp [runSeq, hstep]

theorem resAt_front {P : Type} (svc : Service P) (xs ys : List RegOp) (k : Nat)
    (hk : k < xs.length) : resAt svc (xs ++ ys) k = resAt svc xs k := by
  unfold resAt
  rw [List.getElem?_append_left hk,
    List.take_append_of_le_length (Nat.le_of_lt hk)]

theorem resAt_last {P : Type} (svc : Service P) (xs : List RegOp) (op : RegOp) :
    resAt svc (xs ++ [op]) xs.length =
      (runSeq svc xs).bind fun mid => (regStep mid op).map Prod.snd := by
  unfold resAt
  rw [List.getElem?_append_right (Nat.le_refl _),
    List.take_append_of_le_length (Nat.le_refl _)]
  simp only [Nat.sub_self, List.getElem?_cons_zero, List.take_length]
  cases hmid : runSeq svc xs with
  | none => rfl
  | some mid => rfl

theorem getElem?_some_lt {α : Type} {l : List α} {n : Nat} {a : α}
    (h : l[n]? = some a) : n < l.length := by
  by_contra hc
  rw [List.getElem?_eq_none (Nat.le_of_not_lt hc)] at h
  cases h

/-- Extension step for the load-history invariant: appending any
operation other than `unload` preserves a load anchor. -/
theorem hist_extend {P : Type} (svc : Service P) (xs : List RegOp) (op : RegOp)
    (hne : op ≠ RegOp.unload) (j : Nat)
    (hload : xs[j]? = some RegOp.load) (hres : resAt svc xs j = some 0)
    (hnoun : ∀ k, j < k → xs[k]? ≠ some RegOp.unload) :
    (xs ++ [op])[j]? = some RegOp.load ∧
      resAt svc (xs ++ [op]) j = some 0 ∧
      ∀ k, j < k → (xs ++ [op])[k]? ≠ some RegOp.unload := by
  have hjlen : j < xs.length := getElem?_some_lt hload
  refine ⟨?_, ?_, ?_⟩
  · rw [List.getElem?_append_left hjlen]; exact hload
  · rw [resAt_front _ _ _ _ hjlen]; exact hres
  · intro k hk
    rcases Nat.lt_trichotomy k xs.length with h1 | h1 | h1
    · rw [List.getElem?_append_left h1]; exact hnoun k hk
    · subst h1
      rw [List.getElem?_append_right (Nat.le_refl _)]
      simp only [Nat.sub_self, List.getElem?_cons_zero]
      intro hc
      exact hne (Option.some.inj hc)
    · rw [List.getElem?_eq_none (by simpa using Nat.succ_le_of_lt h1)]
      exact fun hc => Option.noConfusion hc

/-- Extension step for the start-followed-by-stop condition: appending
any operation other than `start` preserves it. -/
theorem hist_extend_start {P : Type} (svc : Service P) (xs : List RegOp)
    (op : RegOp) (hne2 : op ≠ RegOp.start) (j : Nat)
    (hst : ∀ k, j < k → xs[k]? = some RegOp.start →
      resAt svc xs k = some 0 →
      ∃ m, k < m ∧ xs[m]? = some RegOp.stop ∧ resAt svc xs m = some 0) :
    ∀ k, j < k → (xs ++ [op])[k]? = some RegOp.start →
      resAt svc (xs ++ [op]) k = some 0 →
      ∃ m, k < m ∧ (xs ++ [op])[m]? = some RegOp.stop ∧
        resAt svc (xs ++ [op]) m = some 0 := by
  intro k hk hkop hkres
  rcases Nat.lt_trichotomy k xs.length with h1 | h1 | h1
  · rw [List.getElem?_append_left h1] at hkop
    rw [resAt_front _ _ _ _ h1] at hkres
    obtain ⟨m, hm1, hm2, hm3⟩ := hst k hk hkop hkres
    have hmlen : m < xs.length := getElem?_some_lt hm2
    refine ⟨m, hm1, ?_, ?_⟩
    · rw [List.getElem?_append_left hmlen]; exact hm2
    · rw [resAt_front _ _ _ _ hmlen]; exact hm3
  · subst h1
    rw [List.getElem?_append_right (Nat.le_refl _)] at hkop
    simp only [Nat.sub_self, List.getElem?_cons_zero] at hkop
    exact absurd (Option.some.inj hkop) hne2
  · rw [List.getElem?_eq_none (by simpa using Nat.succ_le_of_lt h1)] at hkop
    cases hkop

/-- Load-history invariant of the registry state machine
(src/service.c): whenever a sequence of operations runs with defined
behaviour and leaves the service with live allocated state, some
successful `load` occurred with no `unload` after it, and — when the
service is loaded but not started — every successful `start` after that
`load` was followed by a successful `stop`. -/
theorem loaded_history {P : Type} (svc : Service P)
    (h0 : svc.state = SvcState.null) (ops : List RegOp) (fin : Service P)
    (b : Bool) (hrun : runSeq svc ops = some fin)
    (h : fin.state = SvcState.alive b) :
    ∃ j, ops[j]? = some RegOp.load ∧ resAt svc ops j = some 0 ∧
      (∀ k, j < k → ops[k]? ≠ some RegOp.unload) ∧
      (b = false → ∀ k, j < k → ops[k]? = some RegOp.start →
        resAt svc ops k = some 0 →
        ∃ m, k < m ∧ ops[m]? = some RegOp.stop ∧
          resAt svc ops m = some 0) := by
  revert fin b
  induction ops using List.reverseRecOn with
  | nil =>
    intro fin b hrun h
    rw [show runSeq svc [] = some svc from rfl] at hrun
    cases hrun
    rw [h0] at h
    cases h
  | append_singleton xs op ih =>
    intro fin b hrun h
    rw [runSeq_append] at hrun
    cases hmidrun : runSeq svc xs with
    | none =>
      rw [hmidrun] at hrun
      cases hrun
    | some mid =>
      rw [hmidrun] at hrun
      have hrun2 : (regStep mid op).map Prod.fst = some fin := by
        rw [← runSeq_singleton]
        exact hrun
      cases op with
      | load =>
        rcases hms : mid.state with _ | c | _
        · -- NULL state: the load succeeds and is the anchor
          simp only [regStep, service_load, hms] at hrun2
          have hfin : ({ mid with state := SvcState.alive false } : Service P)
              = fin := Option.some.inj hrun2
          refine ⟨xs.length, ?_, ?_, ?_, ?_⟩
          · rw [List.getElem?_append_right (Nat.le_refl _)]
            simp
          · rw [resAt_last, hmidrun]
            simp [regStep, service_load, hms]
          · intro k hk
            rw [List.getElem?_eq_none (by simpa using Nat.succ_le_of_lt hk)]
            exact fun hc => Option.noConfusion hc
          · intro _ k hk hkop
            rw [List.getElem?_eq_none
              (by simpa using Nat.succ_le_of_lt hk)] at hkop
            cases hkop
        · -- live state: the load fails, state unchanged
          simp only [regStep, service_load, hms] at hrun2
          have hfin : mid = fin := Option.some.inj hrun2
          have hmb : mid.state = SvcState.alive b := by rw [hfin]; exact h
          obtain ⟨j, hj1, hj2, hj3, hj4⟩ := ih mid b hmidrun hmb
          obtain ⟨g1, g2, g3⟩ :=
            hist_extend svc xs .load (by simp) j hj1 hj2 hj3
          refine ⟨j, g1, g2, g3, fun hb => ?_⟩
          exact hist_extend_start svc xs .load (by simp) j (hj4 hb)
        · -- dangling state: the load fails, state still dangling
          simp only [regStep, service_load, hms] at hrun2
          have hfin : mid = fin := Option.some.inj hrun2
          rw [← hfin, hms] at h
          exact SvcState.noConfusion h
      | unload =>
        rcases hms : mid.state with _ | c | _
        · simp only [regStep, service_unload, hms] at hrun2
          have hfin : mid = fin := Option.some.inj hrun2
          rw [← hfin, hms] at h
          exact SvcState.noConfusion h
        · simp only [regStep, service_unload, hms] at hrun2
          have hfin : ({ mid with state := SvcState.dangling } : Service P)
              = fin := Option.some.inj hrun2
          rw [← hfin] at h
          simp at h
        · simp only [regStep, service_unload, hms] at hrun2
          exact Option.noConfusion hrun2
      | start =>
        rcases hms : mid.state with _ | c | _
        · simp only [regStep, service_start, hms] at hrun2
          have hfin : mid = fin := Option.some.inj hrun2
          rw [← hfin, hms] at h
          exact SvcState.noConfusion h
        · cases c with
          | false =>
            -- the start succeeds: state becomes alive true, so b = true
            simp only [regStep, service_start, hms] at hrun2
            have hfin : ({ mid with state := SvcState.alive true } : Service P)
                = fin := Option.some.inj hrun2
            have hb : b = true := by
              rw [← hfin] at h
              cases b
              · simp at h
              · rfl
            obtain ⟨j, hj1, hj2, hj3, _⟩ := ih mid false hmidrun hms
            obtain ⟨g1, g2, g3⟩ :=
              hist_extend svc xs .start (by simp) j hj1 hj2 hj3
            refine ⟨j, g1, g2, g3, fun hbf => ?_⟩
            rw [hb] at hbf
            cases hbf
          | true =>
            -- the start fails, state unchanged alive true, so b = true
            simp only [regStep, service_start, hms] at hrun2
            have hfin : mid = fin := Option.some.inj hrun2
            have hb : b = true := by
              rw [← hfin, hms] at h
              cases b
              · simp at h
              · rfl
            obtain ⟨j, hj1, hj2, hj3, _⟩ := ih mid true hmidrun hms
            obtain ⟨g1, g2, g3⟩ :=
              hist_extend svc xs .start (by simp) j hj1 hj2 hj3
            refine ⟨j, g1, g2, g3, fun hbf => ?_⟩
            rw [hb] at hbf
            cases hbf
        · simp only [regStep, service_start, hms] at hrun2
          exact Option.noConfusion hrun2
      | stop =>
        rcases hms : mid.state with _ | c | _
        · simp only [regStep, service_stop, hms] at hrun2
          have hfin : mid = fin := Option.some.inj hrun2
          rw [← hfin, hms] at h
          exact SvcState.noConfusion h
        · cases c with
          | false =>
            -- the stop fails, state unchanged alive false
            simp only [regStep, service_stop, hms] at hrun2
            have hfin : mid = fin := Option.some.inj hrun2
            have hmb : mid.state = SvcState.alive b := by rw [hfin]; exact h
            obtain ⟨j, hj1, hj2, hj3, hj4⟩ := ih mid b hmidrun hmb
            obtain ⟨g1, g2, g3⟩ :=
              hist_extend svc xs .stop (by simp) j hj1 hj2 hj3
            refine ⟨j, g1, g2, g3, fun hb => ?_⟩
            exact hist_extend_start svc xs .stop (by simp) j (hj4 hb)
          | true =>
            -- the stop succeeds: it closes every earlier successful start
            simp only [regStep, service_stop, hms] at hrun2
            obtain ⟨j, hj1, hj2, hj3, _⟩ := ih mid true hmidrun hms
            obtain ⟨g1, g2, g3⟩ :=
              hist_extend svc xs .stop (by simp) j hj1 hj2 hj3
            refine ⟨j, g1, g2, g3, fun _ => ?_⟩
            intro k hk hkop hkres
            have hklen : k < xs.length := by
              rcases Nat.lt_trichotomy k xs.length with h1 | h1 | h1
              · exact h1
              · subst h1
                rw [List.getElem?_append_right (Nat.le_refl _)] at hkop
                simp at hkop
              · rw [List.getElem?_eq_none
                  (by simpa using Nat.succ_le_of_lt h1)] at hkop
                cases hkop
            refine ⟨xs.length, hklen, ?_, ?_⟩
            · rw [List.getElem?_append_right (Nat.le_refl _)]
              simp
            · rw [resAt_last, hmidrun]
              simp [regStep, service_stop, hms]
        · simp only [regStep, service_stop, hms] at hrun2
          exact Option.noConfusion hrun2
      | call =>
        rcases hms : mid.state with _ | c | _
        · simp only [regStep, hms] at hrun2
          have hfin : mid = fin := Option.some.inj hrun2
          rw [← hfin, hms] at h
          exact SvcState.noConfusion h
        · have hfin : mid = fin := by
            cases c with
            | false =>
              simp only [regStep, hms] at hrun2
              exact Option.some.inj hrun2
            | true =>
              simp only [regStep, hms] at hrun2
              exact Option.some.inj hrun2
          have hmb : mid.state = SvcState.alive b := by rw [hfin]; exact h
          obtain ⟨j, hj1, hj2, hj3, hj4⟩ := ih mid b hmidrun hmb
          obtain ⟨g1, g2, g3⟩ :=
            hist_extend svc xs .call (by simp) j hj1 hj2 hj3
          refine ⟨j, g1, g2, g3, fun hb => ?_⟩
          exact hist_extend_start svc xs .call (by simp) j (hj4 hb)
        · simp only [regStep, hms] at hrun2
          exact Option.noConfusion hrun2

theorem resAt_take {P : Type} (svc : Service P) (ops : List RegOp) (i k : Nat)
    (hk : k < i) : resAt svc (ops.take i) k = resAt svc ops k := by
  unfold resAt
  rw [List.getElem?_take_of_lt hk, List.take_take,
    Nat.min_eq_left (Nat.le_of_lt hk)]

/-- C5 (amended): for every sequence of registry operations applied to a
service starting Unloaded, whenever a `start` executes with defined
behaviour — the run up to it never reads or re-frees the dangling state
block that `unload` leaves behind — and returns success, then some
earlier `load` succeeded, no `unload` occurred between that `load` and
this `start`, and every successful `start` in between was followed by a
successful `stop` before this `start`.  (The frozen claim's stronger
condition — no intervening successful `start` at all — fails; see the
counterexample.) -/
theorem c5_start_requires_load {P : Type} (svc0 : Service P)
    (h0 : svc0.state = SvcState.null) (ops : List RegOp) (i : Nat)
    (hop : ops[i]? = some RegOp.start) (hres : resAt svc0 ops i = some 0) :
    ∃ j, j < i ∧ ops[j]? = some RegOp.load ∧ resAt svc0 ops j = some 0 ∧
      (∀ k, j < k → k < i → ops[k]? ≠ some RegOp.unload) ∧
      (∀ k, j < k → k < i → ops[k]? = some RegOp.start →
        resAt svc0 ops k = some 0 →
        ∃ m, k < m ∧ m < i ∧ ops[m]? = some RegOp.stop ∧
          resAt svc0 ops m = some 0) := by
  unfold resAt at hres
  rw [hop] at hres
  cases hmid : runSeq svc0 (ops.take i) with
  | none =>
    rw [hmid] at hres
    cases hres
  | some mid =>
    rw [hmid] at hres
    have hstate : mid.state = SvcState.alive false := by
      rcases hs : mid.state with _ | c | _
      · simp [regStep, service_start, hs] at hres
      · cases c
        · rfl
        · simp [regStep, service_start, hs] at hres
      · simp [regStep, service_start, hs] at hres
    obtain ⟨j, hj1, hj2, hj3, hj4⟩ :=
      loaded_history svc0 h0 (ops.take i) mid false hmid hstate
    have hilen : i < ops.length := getElem?_some_lt hop
    have hjlt : j < i := by
      have := getElem?_some_lt hj1
      rw [List.length_take] at this
      omega
    refine ⟨j, hjlt, ?_, ?_, ?_, ?_⟩
    · rw [← List.getElem?_take_of_lt hjlt]; exact hj1
    · rw [← resAt_take svc0 ops i j hjlt]; exact hj2
    · intro k hk1 hk2
      rw [← List.getElem?_take_of_lt hk2]
      exact hj3 k hk1
    · intro k hk1 hk2 hkop hkres
      obtain ⟨m, hm1, hm2, hm3⟩ := hj4 rfl k hk1
        (by rw [← List.getElem?_take_of_lt hk2] at hkop; exact hkop)
        (by rw [← resAt_take svc0 ops i k hk2] at hkres; exact hkres)
      have hmlt : m < i := by
        have := getElem?_some_lt hm2
        rw [List.length_take] at this
        omega
      refine ⟨m, hm1, hmlt, ?_, ?_⟩
      · rw [← List.getElem?_take_of_lt hmlt]; exact hm2
      · rw [← resAt_take svc0 ops i m hmlt]; exact hm3

/-- Witness for C5 (amended), at the concrete sequence `load, start`
with `start` at position 1. -/
theorem c5_start_requires_load_witness :
    ([RegOp.load, RegOp.start][1]? = some RegOp.start) ∧
    resAt (⟨none, SvcState.null⟩ : Service Unit) [RegOp.load, RegOp.start] 1
      = some 0 ∧
    (∃ j, j < 1 ∧ [RegOp.load, RegOp.start][j]? = some RegOp.load ∧
      resAt (⟨none, SvcState.null⟩ : Service Unit) [RegOp.load, RegOp.start] j
        = some 0 ∧
      (∀ k, j < k → k < 1 →
        [RegOp.load, RegOp.start][k]? ≠ some RegOp.unload) ∧
      (∀ k, j < k → k < 1 →
        [RegOp.load, RegOp.start][k]? = some RegOp.start →
        resAt (⟨none, SvcState.null⟩ : Service Unit) [RegOp.load, RegOp.start]
          k = some 0 →
        ∃ m, k < m ∧ m < 1 ∧
          [RegOp.load, RegOp.start][m]? = some RegOp.stop ∧
          resAt (⟨none, SvcState.null⟩ : Service Unit)
            [RegOp.load, RegOp.start] m = some 0)) :=
  ⟨rfl, rfl, c5_start_requires_load (⟨none, SvcState.null⟩ : Service Unit) rfl
    [RegOp.load, RegOp.start] 1 rfl rfl⟩

/-- Counterexample to C5 as stated: in `load, start, stop, start` the
second `start` (position 3) runs with defined behaviour and succeeds
although a successful `start` (position 1) intervenes between the most
recent successful `load` (position 0) and it. -/
theorem c5_counterexample :
    c5seq[3]? = some RegOp.start ∧
    resAt (⟨none, SvcState.null⟩ : Service Unit) c5seq 3 = some 0 ∧
    ¬ ∃ j, j < 3 ∧ c5seq[j]? = some RegOp.load ∧
      resAt (⟨none, SvcState.null⟩ : Service Unit) c5seq j = some 0 ∧
      ∀ k, j < k → k < 3 →
        c5seq[k]? ≠ some RegOp.unload ∧
        ¬(c5seq[k]? = some RegOp.start ∧
          resAt (⟨none, SvcState.null⟩ : Service Unit) c5seq k = some 0) := by
  refine ⟨rfl, rfl, ?_⟩
  rintro ⟨j, hj, hload, -, hforall⟩
  match j, hj with
  | 0, _ => exact (hforall 1 (by omega) (by omega)).2 ⟨rfl, rfl⟩
  | 1, _ => simp [c5seq] at hload
  | 2, _ => simp [c5seq] at hload

theorem strchr_nl_none_not_mem {s : List Char} (h : strchr_nl s = none) :
    '\n' ∉ s := by
  induction s with
  | nil => simp
  | cons c cs ih =>
    by_cases hc : c = '\n'
    · simp [strchr_nl, hc] at h
    · rw [strchr_nl, if_neg hc] at h
      rcases hcs : strchr_nl cs with _ | pq
      · intro hm
        rcases List.mem_cons.mp hm with h1 | h1
        · exact hc h1.symm
        · exact ih hcs h1
      · rw [hcs] at h
        cases h

theorem strchr_nl_some_decomp {s : List Char} {pq : List Char × List Char}
    (h : strchr_nl s = some pq) :
    s = pq.1 ++ '\n' :: pq.2 ∧ '\n' ∉ pq.1 := by
  induction s generalizing pq with
  | nil => cases h
  | cons c cs ih =>
    by_cases hc : c = '\n'
    · rw [strchr_nl, if_pos hc] at h
      cases h
      simpa using hc
    · rw [strchr_nl, if_neg hc] at h
      rcases hcs : strchr_nl cs with _ | pq2
      · rw [hcs] at h; cases h
      · rw [hcs] at h
        cases h
        obtain ⟨h1, h2⟩ := ih hcs
        constructor
        · simpa using h1
        · intro hm
          rcases List.mem_cons.mp hm with h1 | h1
          · exact hc h1.symm
          · exact h2 h1

theorem splitLines_no_nl {s : List Char} (h : '\n' ∉ s) :
    splitLines s = ([], s) := by
  induction s with
  | nil => rfl
  | cons c cs ih =>
    have hc : ¬c = '\n' := fun hc => h (hc ▸ List.mem_cons_self c cs)
    have hcs : '\n' ∉ cs := fun hm => h (List.mem_cons_of_mem c hm)
    rw [splitLines, if_neg hc, ih hcs]

theorem splitLines_break {p : List Char} (q : List Char) (hp : '\n' ∉ p) :
    splitLines (p ++ '\n' :: q) =
      (p :: (splitLines q).1, (splitLines q).2) := by
  induction p with
  | nil => simp [splitLines]
  | cons c p' ih =>
    have hc : ¬c = '\n' := fun hc => hp (hc ▸ List.mem_cons_self c p')
    have hp' : '\n' ∉ p' := fun hm => hp (List.mem_cons_of_mem c hm)
    rw [List.cons_append, splitLines, if_neg hc, ih hp']

theorem splitNl_no_nl {s : List Char} (h : '\n' ∉ s) : splitNl s = [s] := by
  rw [splitNl, splitLines_no_nl h]
  rfl

theorem splitNl_break {p : List Char} (q : List Char) (hp : '\n' ∉ p) :
    splitNl (p ++ '\n' :: q) = p :: splitNl q := by
  rw [splitNl, splitLines_break q hp, splitNl]
  rfl

/-- The code-side splitter agrees with the library splitter: `splitNl`
is splitting on the newline character. -/
theorem splitNl_eq_splitOn (s : List Char) : splitNl s = s.splitOn '\n' := by
  have H : ∀ n (t : List Char), t.length ≤ n → splitNl t = t.splitOn '\n' := by
    intro n
    induction n with
    | zero =>
      intro t ht
      rw [List.length_eq_zero.mp (Nat.le_zero.mp ht)]
      simp [splitNl, splitLines, List.splitOn_nil]
    | succ n ihn =>
      intro t ht
      rcases hs : strchr_nl t with _ | pq
      · have hnn := strchr_nl_none_not_mem hs
        have hone : ∀ x ∈ t, ¬((x == '\n') = true) := by
          intro x hx hxe
          rw [beq_iff_eq] at hxe
          exact hnn (hxe ▸ hx)
        rw [splitNl_no_nl hnn, List.splitOn, List.splitOnP_eq_single _ _ hone]
      · obtain ⟨hdec, hp⟩ := strchr_nl_some_decomp hs
        have hone : ∀ x ∈ pq.1, ¬((x == '\n') = true) := by
          intro x hx hxe
          rw [beq_iff_eq] at hxe
          exact hp (hxe ▸ hx)
        rw [hdec, splitNl_break _ hp, List.splitOn,
          List.splitOnP_first _ _ hone '\n' (by simp) pq.2]
        have hlen : pq.2.length ≤ n := by
          have := congrArg List.length hdec
          simp at this
          omega
        rw [ihn pq.2 hlen]
        rfl
  exact H s.length s (Nat.le_refl _)

/-- Gluing lemma: splitting a concatenation first yields the complete
lines of the left part, then the splitting of its trailing segment
glued onto the right part. -/
theorem splitNl_append (s t : List Char) :
    splitNl (s ++ t) = (splitLines s).1 ++ splitNl ((splitLines s).2 ++ t) := by
  have H : ∀ n (s : List Char), s.length ≤ n → ∀ t : List Char,
      splitNl (s ++ t) =
        (splitLines s).1 ++ splitNl ((splitLines s).2 ++ t) := by
    intro n
    induction n with
    | zero =>
      intro s hs t
      rw [List.length_eq_zero.mp (Nat.le_zero.mp hs)]
      simp [splitLines]
    | succ n ihn =>
      intro s hs t
      rcases hsplit : strchr_nl s with _ | pq
      · rw [splitLines_no_nl (strchr_nl_none_not_mem hsplit)]
        simp
      · obtain ⟨hdec, hp⟩ := strchr_nl_some_decomp hsplit
        have hlen : pq.2.length ≤ n := by
          have := congrArg List.length hdec
          simp at this
          omega
        rw [hdec, splitLines_break _ hp,
          show (pq.1 ++ '\n' :: pq.2) ++ t = pq.1 ++ '\n' :: (pq.2 ++ t) by simp,
          splitNl_break _ hp, ihn pq.2 hlen t]
        rfl
  exact H s.length s (Nat.le_refl _) t

/-- The trailing text after the last newline contains no newline. -/
theorem splitLines_tail_no_nl (s : List Char) : '\n' ∉ (splitLines s).2 := by
  induction s with
  | nil => simp [splitLines]
  | cons c cs ih =>
    by_cases hc : c = '\n'
    · rw [splitLines, if_pos hc]
      exact ih
    · rw [splitLines, if_neg hc]
      rcases hL : splitLines cs with ⟨L, T⟩
      rw [hL] at ih
      cases L with
      | nil =>
        intro hm
        rcases List.mem_cons.mp hm with h1 | h1
        · exact hc h1.symm
        · exact ih h1
      | cons l ls => exact ih

/-- A write never stores a newline in the buffer (spec, Output Line
Buffer invariant). -/
theorem cstdout_write_no_nl (buf : Option (List Char))
    (hbuf : '\n' ∉ buf.getD []) (w : List Char) :
    '\n' ∉ (cstdout_write buf w).1.getD [] := by
  rcases h : strchr_nl w with _ | pq
  · have hw := strchr_nl_none_not_mem h
    simp only [cstdout_write, h]
    intro hm
    rcases List.mem_append.mp hm with h1 | h1
    · exact hbuf h1
    · exact hw h1
  · simp only [cstdout_write, h]
    by_cases hrest : pq.2 = []
    · rw [if_pos hrest]
      simp
    · rw [if_neg hrest]
      exact splitLines_tail_no_nl pq.2

/-- Key step lemma: one write emits exactly the records that splitting
the buffered text followed by the written text (followed by anything
yet to come) would produce, with the new buffer carrying the rest. -/
theorem cstdout_write_split (buf : Option (List Char))
    (hbuf : '\n' ∉ buf.getD []) (w rest : List Char) :
    splitNl (buf.getD [] ++ (w ++ rest)) =
      (cstdout_write buf w).2 ++
        splitNl ((cstdout_write buf w).1.getD [] ++ rest) := by
  rcases h : strchr_nl w with _ | pq
  · simp only [cstdout_write, h]
    simp [List.append_assoc]
  · obtain ⟨hdec, hp⟩ := strchr_nl_some_decomp h
    have hnn : '\n' ∉ buf.getD [] ++ pq.1 := by
      intro hm
      rcases List.mem_append.mp hm with h1 | h1
      · exact hbuf h1
      · exact hp h1
    have hL : buf.getD [] ++ (w ++ rest) =
        (buf.getD [] ++ pq.1) ++ '\n' :: (pq.2 ++ rest) := by
      rw [hdec]
      simp
    rw [hL, splitNl_break _ hnn, splitNl_append pq.2 rest]
    simp only [cstdout_write, h]
    by_cases hrest : pq.2 = []
    · rw [if_pos hrest, hrest]
      simp [splitLines]
    · rw [if_neg hrest]
      simp

/-- Main invariant of the Output Line Buffer: splitting the
concatenation of buffered text and all written text on newlines yields
exactly the emitted records followed by the final buffer contents, and
the final buffer never holds a newline. -/
theorem runWrites_split (ws : List (List Char)) (buf : Option (List Char))
    (hbuf : '\n' ∉ buf.getD []) :
    splitNl (buf.getD [] ++ ws.flatten) =
      (runWrites buf ws).2 ++ [(runWrites buf ws).1.getD []] ∧
      '\n' ∉ (runWrites buf ws).1.getD [] := by
  induction ws generalizing buf with
  | nil =>
    refine ⟨?_, hbuf⟩
    rw [show runWrites buf [] = (buf, []) from rfl]
    simp [splitNl_no_nl hbuf]
  | cons w ws ih =>
    have h1 := cstdout_write_split buf hbuf w ws.flatten
    obtain ⟨ih1, ih2⟩ :=
      ih (cstdout_write buf w).1 (cstdout_write_no_nl buf hbuf w)
    refine ⟨?_, ?_⟩
    · rw [show (w :: ws).flatten = w ++ ws.flatten from rfl, h1, ih1, runWrites]
      simp
    · rw [runWrites]
      exact ih2

theorem cstdout_write_buf_none (buf : Option (List Char)) (w : List Char) :
    ((cstdout_write buf w).1 = none) ↔ endsAtFirstNewline w = true := by
  rcases h : strchr_nl w with _ | pq
  · simp only [cstdout_write, h, endsAtFirstNewline]
    simp
  · simp only [cstdout_write, h, endsAtFirstNewline]
    by_cases hrest : pq.2 = []
    · rw [if_pos hrest]
      simp [hrest]
    · rw [if_neg hrest]
      simp [hrest, List.isEmpty_iff]

theorem runWrites_buf_none (ws : List (List Char)) (buf : Option (List Char)) :
    ((runWrites buf ws).1 = none) ↔
      (match ws.getLast? with
        | none => buf = none
        | some w => endsAtFirstNewline w = true) := by
  induction ws generalizing buf with
  | nil => simp [runWrites]
  | cons w ws ih =>
    cases ws with
    | nil =>
      rw [show runWrites buf [w] =
        ((cstdout_write buf w).1, (cstdout_write buf w).2 ++ []) from rfl]
      simpa using cstdout_write_buf_none buf w
    | cons w2 ws2 =>
      rw [runWrites, List.getLast?_cons_cons]
      exact ih (cstdout_write buf w).1

/-- C2 (amended): for every sequence of writes to a fresh buffer whose
concatenation is `S`, the records emitted by the writes followed by one
flush equal `S` split on newline characters, with the final segment
suppressed exactly when no write occurred or the last write's first
newline is its final character (the cases in which the buffer pointer
ends up `NULL`).  In particular flush emits the buffered text as a
record whenever the buffer is allocated — including when it holds the
empty string — not only when it is non-empty, so the final empty
segment of an `S` ending in a newline is emitted rather than suppressed
whenever the last write carries text beyond its first newline. -/
theorem c2_records_are_split (ws : List (List Char)) :
    emittedRecords ws =
      if tailSuppressed ws = true then (ws.flatten.splitOn '\n').dropLast
      else ws.flatten.splitOn '\n' := by
  obtain ⟨h1, h2⟩ := runWrites_split ws none (by simp)
  rw [show (none : Option (List Char)).getD [] ++ ws.flatten = ws.flatten
    from rfl] at h1
  rw [← splitNl_eq_splitOn]
  rcases hb : (runWrites none ws).1 with _ | t
  · have hsup : tailSuppressed ws = true := by
      have hc := (runWrites_buf_none ws none).mp hb
      unfold tailSuppressed
      rcases hlast : ws.getLast? with _ | w
      · rfl
      · rw [hlast] at hc
        exact hc
    rw [if_pos hsup, emittedRecords, hb]
    rw [hb] at h1
    rw [h1]
    simp [cstdout_flush]
  · have hsup : ¬tailSuppressed ws = true := by
      intro hc
      have hnone : (runWrites none ws).1 = none := by
        rw [runWrites_buf_none]
        unfold tailSuppressed at hc
        rcases hlast : ws.getLast? with _ | w
        · rfl
        · rw [hlast] at hc
          exact hc
      rw [hnone] at hb
      cases hb
    rw [if_neg hsup, emittedRecords, hb]
    rw [hb] at h1
    rw [h1]
    simp [cstdout_flush]

/-- Counterexample to C2 as stated: for the single write
`"a", newline, "b", newline` the concatenation `S` ends in a newline,
so the claim demands the records `"a", "b"` (final empty segment
suppressed), but the code leaves an allocated empty buffer after the
write and the flush emits a third, empty record. -/
theorem c2_counterexample :
    (['a', '\n', 'b', '\n'] : List Char).getLast? = some '\n' ∧
    ([['a', '\n', 'b', '\n']] : List (List Char)).flatten.splitOn '\n'
      = [['a'], ['b'], []] ∧
    (([['a', '\n', 'b', '\n']] : List (List Char)).flatten.splitOn
      '\n').dropLast = [['a'], ['b']] ∧
    emittedRecords [['a', '\n', 'b', '\n']] = [['a'], ['b'], []] ∧
    emittedRecords [['a', '\n', 'b', '\n']] ≠
      (([['a', '\n', 'b', '\n']] : List (List Char)).flatten.splitOn
        '\n').dropLast := by
  refine ⟨rfl, by decide, by decide, by decide, by decide⟩

/-- C3 (amended): the writes `"abc"`, `"def" + newline`,
`"ghi" + newline + "j"`, `"kl" + newline` to a fresh buffer emit the
records `"abcdef"`, `"ghi"`, `"jkl"` in that order already during the
writes (not `"abcdefghi"` then `"jkl"` as the frozen claim states); the
buffer is then `NULL` and the final flush emits nothing.  The second
part of the claim holds as stated: the single write `"x" + newline`
emits exactly one record `"x"` and leaves the buffer empty. -/
theorem c3_trace :
    (runWrites none [['a', 'b', 'c'], ['d', 'e', 'f', '\n'],
      ['g', 'h', 'i', '\n', 'j'], ['k', 'l', '\n']]).2
      = [['a', 'b', 'c', 'd', 'e', 'f'], ['g', 'h', 'i'],
          ['j', 'k', 'l']] ∧
    (runWrites none [['a', 'b', 'c'], ['d', 'e', 'f', '\n'],
      ['g', 'h', 'i', '\n', 'j'], ['k', 'l', '\n']]).1 = none ∧
    (cstdout_flush (runWrites none [['a', 'b', 'c'], ['d', 'e', 'f', '\n'],
      ['g', 'h', 'i', '\n', 'j'], ['k', 'l', '\n']]).1).2 = [] ∧
    emittedRecords [['a', 'b', 'c'], ['d', 'e', 'f', '\n'],
      ['g', 'h', 'i', '\n', 'j'], ['k', 'l', '\n']]
      = [['a', 'b', 'c', 'd', 'e', 'f'], ['g', 'h', 'i'],
          ['j', 'k', 'l']] ∧
    emittedRecords [['x', '\n']] = [['x']] ∧
    (runWrites none [['x', '\n']]).1 = none := by
  refine ⟨by decide, by decide, by decide, by decide, by decide, by decide⟩

/-- Counterexample to C3 as stated: the records emitted for the writes
`"abc"`, `"def" + newline`, `"ghi" + newline + "j"`, `"kl" + newline`
are not `"abcdefghi"` then `"jkl"` — the first newline arrives already
in the second write, so the first record is `"abcdef"`. -/
theorem c3_counterexample :
    emittedRecords [['a', 'b', 'c'], ['d', 'e', 'f', '\n'],
      ['g', 'h', 'i', '\n', 'j'], ['k', 'l', '\n']] ≠
      [['a', 'b', 'c', 'd', 'e', 'f', 'g', 'h', 'i'],
        ['j', 'k', 'l']] := by decide

/-- C9: `service_call` invokes the looked-up procedure with no `NULL`
check, and the Python service's lookup returns `NULL` exactly for the
ordinals without a dispatch-table case — among them
`service_python_fn_interact_test_low_battery`, which src/main.c line 59
calls on the loaded-and-started service — so `service_call` is
well-defined exactly when the ordinal is mapped and the
`NULL`-procedure branch is reachable from `main`. -/
theorem c9_null_proc_reachable :
    python_proc service_python_fn_interact_test_low_battery = none ∧
    (∀ fn : Int, python_proc fn = none ↔ (fn = 3 ∨ fn < 0 ∨ 8 < fn)) ∧
    runSeq SERVICE_PYTHON [RegOp.load, RegOp.start] = some mainPythonService ∧
    mainPythonService.state = SvcState.alive true ∧
    service_call mainPythonService
      service_python_fn_interact_test_low_battery = none ∧
    (∀ fn : Int,
      (service_call mainPythonService fn).isSome ↔
        (python_proc fn).isSome) := by
  refine ⟨rfl, ?_, rfl, rfl, rfl, ?_⟩
  · intro fn
    simp only [python_proc, service_python_fn_op_exec,
      service_python_fn_interact_auto_enable,
      service_python_fn_interact_auto_disable,
      service_python_fn_interact_manual_advance,
      service_python_fn_interact_manual_return,
      service_python_fn_interact_manual_req_diversion_faces,
      service_python_fn_interact_manual_req_diversion_converse,
      service_python_fn_interact_manual_req_diversion_wander]
    split_ifs <;> first
    | (simp_all; omega)
    | simp_all
  · intro fn
    rw [show mainPythonService = ⟨some pythonIface, SvcState.alive true⟩
      from rfl]
    cases hp : python_proc fn with
    | none => simp [service_call, pythonIface, hp]
    | some p => simp [service_call, pythonIface, hp]

/-- `python__handle_exception` always leaves no pending exception and
never touches the token slot, the operation selection or the namespace,
whatever the rendering outcome. -/
theorem python__handle_exception_clears (st : HostState)
    (chain : List PyExc) :
    (python__handle_exception st chain).pending = none ∧
    ((python__handle_exception st chain).tokenParked = st.tokenParked ∧
      (python__handle_exception st chain).opSelected = st.opSelected ∧
      (python__handle_exception st chain).selectedOp = st.selectedOp ∧
      (python__handle_exception st chain).ns = st.ns) := by
  induction chain generalizing st with
  | nil =>
    cases hp : st.pending with
    | none =>
      have hstep : python__handle_exception st [] = st := by
        rw [python__handle_exception.eq_def, hp]
      rw [hstep]
      exact ⟨hp, rfl, rfl, rfl, rfl⟩
    | some e =>
      have hstep : python__handle_exception st [] =
          { st with
              pending := none
              errorLog := st.errorLog ++ [e.ty, e.val, e.tb] } := by
        rw [python__handle_exception.eq_def, hp]
      rw [hstep]
      exact ⟨rfl, rfl, rfl, rfl, rfl⟩
  | cons e2 rest ih =>
    cases hp : st.pending with
    | none =>
      have hstep : python__handle_exception st (e2 :: rest) = st := by
        rw [python__handle_exception.eq_def, hp]
      rw [hstep]
      exact ⟨hp, rfl, rfl, rfl, rfl⟩
    | some e =>
      have hstep : python__handle_exception st (e2 :: rest) =
          python__handle_exception { st with pending := some e2 } rest := by
        rw [python__handle_exception.eq_def, hp]
      rw [hstep]
      have hrec := ih { st with pending := some e2 }
      simpa using hrec

/-- C7: invoking the select-and-execute procedure while an operation is
already selected fails with code 1 before acquiring the token or
entering the interpreter, leaving the whole host state — selection,
token, namespace, log — unchanged, regardless of the requested
operation. -/
theorem c7_already_selected (st : HostState) (op : PyOp)
    (exc : Option PyExc) (chain : List PyExc) (h : st.opSelected = true) :
    python__proc_op_exec st op exc chain = (st, 1) := by
  unfold python__proc_op_exec
  rw [if_pos h]

/-- Witness for C7 at a concrete host state with the interact operation
selected. -/
theorem c7_already_selected_witness :
    (HostState.mk true true PyOp.interact none [] []).opSelected = true ∧
    python__proc_op_exec (HostState.mk true true PyOp.interact none [] [])
      PyOp.friends_list none []
      = (HostState.mk true true PyOp.interact none [] [], 1) :=
  ⟨rfl, c7_already_selected (HostState.mk true true PyOp.interact none [] [])
    PyOp.friends_list none [] rfl⟩

/-- C4 (code evaluated at the failing input): when the auto-enable
snippet raises an interpreter exception, `python__proc_auto_enable`
takes the early error return — the exception is handled but
`PyEval_SaveThread` never runs, so the procedure returns code 1 with
the Execution Context Token still held by the calling thread rather
than parked, whatever the rendering outcome.  The select-and-execute
procedure, by contrast, parks the token on its snippet path. -/
theorem c4_token_not_parked_on_error (st : HostState) (e : PyExc)
    (chain : List PyExc) :
    (python__proc_auto_enable st none none (some e) chain).1.tokenParked
      = false ∧
    (python__proc_auto_enable st none none (some e) chain).2 = 1 ∧
    (∀ op exc chain2, st.opSelected = false →
      (python__proc_op_exec st op exc chain2).1.tokenParked = true) := by
  refine ⟨?_, rfl, ?_⟩
  · show (python__handle_exception
        { st with tokenParked := false, pending := some e } chain).tokenParked
      = false
    rw [(python__handle_exception_clears
      { st with tokenParked := false, pending := some e } chain).2.1]
  · intro op exc chain2 h
    unfold python__proc_op_exec
    rw [if_neg (by rw [h]; exact Bool.false_ne_true)]

/-- Witness for C4's evaluation at a concrete parked state, a concrete
exception, and a successful rendering. -/
theorem c4_token_not_parked_on_error_witness :
    ((python__proc_auto_enable (HostState.mk true false PyOp.friends_list
        none [] []) none none
        (some (PyExc.mk "NameError" "name op is not defined" "tb"))
        []).1.tokenParked = false ∧
    (python__proc_auto_enable (HostState.mk true false PyOp.friends_list
        none [] []) none none
        (some (PyExc.mk "NameError" "name op is not defined" "tb"))
        []).2 = 1 ∧
    (∀ op exc chain2, (HostState.mk true false PyOp.friends_list
        none [] []).opSelected = false →
      (python__proc_op_exec (HostState.mk true false PyOp.friends_list
        none [] []) op exc chain2).1.tokenParked = true)) :=
  c4_token_not_parked_on_error
    (HostState.mk true false PyOp.friends_list none [] [])
    (PyExc.mk "NameError" "name op is not defined" "tb") []

/-- C6 (amended): an interpreter exception raised during a snippet run
inside a dispatched call is captured and cleared whatever the rendering
outcome, and never surfaces as a nonzero return from `service_call`:
the forwarding procedure's nonzero code is only logged as a warning by
`service_call`, which returns 0 to its caller on every mapped started
call, and the select-and-execute procedure itself returns 0 even when
its snippet raises.  The type/value/traceback bundle is rendered and
logged exactly when the rendering steps themselves raise nothing (empty
chain); see the counterexample for a failing render step. -/
theorem c6_exception_cleared_and_call_success (st : HostState) (e : PyExc)
    (svc : Service PyProc) (hst : svc.state = SvcState.alive true)
    (hif : svc.iface = some pythonIface) :
    (python__proc_auto_enable st none none (some e) []).1.pending = none ∧
    (python__proc_auto_enable st none none (some e) []).1.errorLog
      = st.errorLog ++ [e.ty, e.val, e.tb] ∧
    (∀ chain,
      (python__proc_auto_enable st none none (some e) chain).1.pending
        = none) ∧
    (∀ chain,
      (python__proc_auto_enable st none none (some e) chain).2 = 1) ∧
    service_call svc service_python_fn_interact_auto_enable
      = some (svc, 0) ∧
    (st.opSelected = false →
      (python__proc_op_exec st PyOp.interact (some e) []).1.pending
        = none ∧
      (python__proc_op_exec st PyOp.interact (some e) []).2 = 0) := by
  refine ⟨rfl, rfl, ?_, fun chain => rfl, ?_, ?_⟩
  · intro chain
    show (python__handle_exception
        { st with tokenParked := false, pending := some e } chain).pending
      = none
    exact (python__handle_exception_clears _ chain).1
  · rcases svc with ⟨i, s⟩
    cases hst
    cases hif
    rfl
  · intro h
    unfold python__proc_op_exec
    rw [if_neg (by rw [h]; exact Bool.false_ne_true)]
    exact ⟨rfl, rfl⟩

/-- Counterexample to C6 as stated: when a rendering step itself raises
(here modelling a failed `PyObject_Repr`, src/service/python.c lines
666-677), the original exception is cleared but its
type/value/traceback bundle is never rendered or logged — the error log
receives only the nested exception's bundle — refuting the claim's
unconditional "rendered into type, value, and traceback diagnostic
strings, logged". -/
theorem c6_counterexample :
    (python__proc_auto_enable
        (HostState.mk true false PyOp.friends_list none [] []) none none
        (some (PyExc.mk "ExcA" "valA" "tbA"))
        [PyExc.mk "ExcB" "valB" "tbB"]).1.pending = none ∧
    (python__proc_auto_enable
        (HostState.mk true false PyOp.friends_list none [] []) none none
        (some (PyExc.mk "ExcA" "valA" "tbA"))
        [PyExc.mk "ExcB" "valB" "tbB"]).1.errorLog
      = ["ExcB", "valB", "tbB"] ∧
    ¬"ExcA" ∈ (python__proc_auto_enable
        (HostState.mk true false PyOp.friends_list none [] []) none none
        (some (PyExc.mk "ExcA" "valA" "tbA"))
        [PyExc.mk "ExcB" "valB" "tbB"]).1.errorLog :=
  ⟨rfl, rfl, by decide⟩

/-- Witness for C6 (amended) at a concrete host state, exception and
started service. -/
theorem c6_exception_cleared_witness :
    ((python__proc_auto_enable (HostState.mk true false PyOp.friends_list
        none [] []) none none
        (some (PyExc.mk "TypeError" "bad operand" "tb")) []).1.pending
        = none ∧
    (python__proc_auto_enable (HostState.mk true false PyOp.friends_list
        none [] []) none none
        (some (PyExc.mk "TypeError" "bad operand" "tb")) []).1.errorLog
      = (HostState.mk true false PyOp.friends_list none [] []).errorLog ++
          ["TypeError", "bad operand", "tb"] ∧
    (∀ chain,
      (python__proc_auto_enable (HostState.mk true false PyOp.friends_list
        none [] []) none none
        (some (PyExc.mk "TypeError" "bad operand" "tb")) chain).1.pending
        = none) ∧
    (∀ chain,
      (python__proc_auto_enable (HostState.mk true false PyOp.friends_list
        none [] []) none none
        (some (PyExc.mk "TypeError" "bad operand" "tb")) chain).2 = 1) ∧
    service_call
      (⟨some pythonIface, SvcState.alive true⟩ : Service PyProc)
      service_python_fn_interact_auto_enable
      = some (⟨some pythonIface, SvcState.alive true⟩, 0) ∧
    ((HostState.mk true false PyOp.friends_list none [] []).opSelected
        = false →
      (python__proc_op_exec (HostState.mk true false PyOp.friends_list
          none [] []) PyOp.interact
          (some (PyExc.mk "TypeError" "bad operand" "tb")) []).1.pending
        = none ∧
      (python__proc_op_exec (HostState.mk true false PyOp.friends_list
          none [] []) PyOp.interact
          (some (PyExc.mk "TypeError" "bad operand" "tb")) []).2 = 0)) :=
  c6_exception_cleared_and_call_success
    (HostState.mk true false PyOp.friends_list none [] [])
    (PyExc.mk "TypeError" "bad operand" "tb")
    (⟨some pythonIface, SvcState.alive true⟩ : Service PyProc) rfl rfl

theorem consoleFlag_append_singleton (xs : List ConsoleEvent)
    (ev : ConsoleEvent) (f : Bool) :
    consoleFlag f (xs ++ [ev]) =
      (match ev with
        | ConsoleEvent.input l => console__handle_input (consoleFlag f xs) l
        | ConsoleEvent.readClear =>
          (console__proc_interrupted (consoleFlag f xs)).2) := by
  induction xs generalizing f with
  | nil => cases ev <;> rfl
  | cons e2 xs2 ih2 =>
    cases e2 with
    | input l2 => exact ih2 (console__handle_input f l2)
    | readClear => exact ih2 (console__proc_interrupted f).2

/-- Characterization of the interrupted flag: it is set after a
sequence of events exactly when it started set and no get-and-clear
occurred, or some "stop" line was handled and no get-and-clear occurred
after it. -/
theorem consoleFlag_true_iff (es : List ConsoleEvent) (flag : Bool) :
    consoleFlag flag es = true ↔
      ((flag = true ∧ ∀ j : Nat, es[j]? ≠ some ConsoleEvent.readClear) ∨
        ∃ i : Nat, es[i]? = some (ConsoleEvent.input "stop") ∧
          ∀ j : Nat, i < j → es[j]? ≠ some ConsoleEvent.readClear) := by
  induction es using List.reverseRecOn with
  | nil =>
    simp [consoleFlag]
  | append_singleton xs ev ih =>
    have hrun : ∀ f, consoleFlag f (xs ++ [ev]) =
        (match ev with
          | ConsoleEvent.input l => console__handle_input (consoleFlag f xs) l
          | ConsoleEvent.readClear =>
            (console__proc_interrupted (consoleFlag f xs)).2) :=
      fun f => consoleFlag_append_singleton xs ev f
    cases ev with
    | readClear =>
      rw [hrun flag]
      simp only [console__proc_interrupted]
      constructor
      · intro hc
        cases hc
      · rintro (⟨-, hnone⟩ | ⟨i, hstop, hafter⟩)
        · exact absurd (by
            rw [List.getElem?_append_right (Nat.le_refl _)]
            simp) (hnone xs.length)
        · have hi : i < xs.length := by
            have := getElem?_some_lt (l := xs ++ [ConsoleEvent.readClear]) hstop
            simp at this
            rcases Nat.lt_succ_iff_lt_or_eq.mp this with h1 | h1
            · exact h1
            · subst h1
              rw [List.getElem?_append_right (Nat.le_refl _)] at hstop
              simp at hstop
          exact absurd (by
            rw [List.getElem?_append_right (Nat.le_refl _)]
            simp) (hafter xs.length hi)
    | input l =>
      rw [hrun flag]
      by_cases hl : l = "stop"
      · subst hl
        simp only [console__handle_input, if_pos rfl]
        constructor
        · intro _h
          refine Or.inr ⟨xs.length, ?_, ?_⟩
          · rw [List.getElem?_append_right (Nat.le_refl _)]
            simp
          · intro j hj
            rw [List.getElem?_eq_none (by simpa using Nat.succ_le_of_lt hj)]
            exact fun hc => Option.noConfusion hc
        · intro _h
          rfl
      · simp only [console__handle_input, if_neg hl]
        rw [ih]
        constructor
        · rintro (⟨hf, hnone⟩ | ⟨i, hstop, hafter⟩)
          · refine Or.inl ⟨hf, fun j => ?_⟩
            rcases Nat.lt_trichotomy j xs.length with h1 | h1 | h1
            · rw [List.getElem?_append_left h1]
              exact hnone j
            · subst h1
              rw [List.getElem?_append_right (Nat.le_refl _)]
              simp
            · rw [List.getElem?_eq_none (by simpa using Nat.succ_le_of_lt h1)]
              exact fun hc => Option.noConfusion hc
          · have hi : i < xs.length := getElem?_some_lt hstop
            refine Or.inr ⟨i, by rw [List.getElem?_append_left hi]; exact hstop,
              fun j hj => ?_⟩
            rcases Nat.lt_trichotomy j xs.length with h1 | h1 | h1
            · rw [List.getElem?_append_left h1]
              exact hafter j hj
            · subst h1
              rw [List.getElem?_append_right (Nat.le_refl _)]
              simp
            · rw [List.getElem?_eq_none (by simpa using Nat.succ_le_of_lt h1)]
              exact fun hc => Option.noConfusion hc
        · rintro (⟨hf, hnone⟩ | ⟨i, hstop, hafter⟩)
          · refine Or.inl ⟨hf, fun j => ?_⟩
            have := hnone j
            rcases Nat.lt_trichotomy j xs.length with h1 | h1 | h1
            · rw [List.getElem?_append_left h1] at this
              exact this
            · subst h1
              rw [List.getElem?_eq_none (Nat.le_refl _)]
              exact fun hc => Option.noConfusion hc
            · rw [List.getElem?_eq_none (Nat.le_of_lt h1)]
              exact fun hc => Option.noConfusion hc
          · have hi : i < xs.length := by
              have := getElem?_some_lt (l := xs ++ [ConsoleEvent.input l]) hstop
              simp at this
              rcases Nat.lt_succ_iff_lt_or_eq.mp this with h1 | h1
              · exact h1
              · subst h1
                rw [List.getElem?_append_right (Nat.le_refl _)] at hstop
                simp at hstop
                exact absurd hstop.symm (fun hc => hl hc.symm)
            rw [List.getElem?_append_left hi] at hstop
            refine Or.inr ⟨i, hstop, fun j hj => ?_⟩
            have := hafter j hj
            rcases Nat.lt_trichotomy j xs.length with h1 | h1 | h1
            · rw [List.getElem?_append_left h1] at this
              exact this
            · subst h1
              rw [List.getElem?_eq_none (Nat.le_refl _)]
              exact fun hc => Option.noConfusion hc
            · rw [List.getElem?_eq_none (Nat.le_of_lt h1)]
              exact fun hc => Option.noConfusion hc

/-- C8: after the input thread observes the literal line "stop", the
next get-and-clear call writes true and resets the flag, and every
later get-and-clear writes false until "stop" is observed again — the
read-and-clear returns true exactly once per set. -/
theorem c8_get_and_clear :
    (∀ (es : List ConsoleEvent) (i j : Nat),
      es[i]? = some (ConsoleEvent.input "stop") → i < j →
      es[j]? = some ConsoleEvent.readClear →
      (∀ k : Nat, i < k → k < j → es[k]? ≠ some ConsoleEvent.readClear) →
      interruptedOutputAt es j = true) ∧
    (∀ (es : List ConsoleEvent) (j m : Nat),
      es[j]? = some ConsoleEvent.readClear → j < m →
      es[m]? = some ConsoleEvent.readClear →
      (∀ k : Nat, j < k → k < m →
        es[k]? ≠ some (ConsoleEvent.input "stop")) →
      interruptedOutputAt es m = false) := by
  constructor
  · intro es i j hstop hij hj hbetween
    show consoleFlag false (es.take j) = true
    rw [consoleFlag_true_iff]
    refine Or.inr ⟨i, ?_, ?_⟩
    · rw [List.getElem?_take_of_lt hij]
      exact hstop
    · intro k hik
      rcases Nat.lt_trichotomy k j with h1 | h1 | h1
      · rw [List.getElem?_take_of_lt h1]
        exact hbetween k hik h1
      · subst h1
        rw [List.getElem?_eq_none (by rw [List.length_take]; omega)]
        exact fun hc => Option.noConfusion hc
      · rw [List.getElem?_eq_none (by rw [List.length_take]; omega)]
        exact fun hc => Option.noConfusion hc
  · intro es j m hj hjm hm hbetween
    have hne : ¬consoleFlag false (es.take m) = true := by
      rw [consoleFlag_true_iff]
      rintro (⟨hf, -⟩ | ⟨i, hstop, hafter⟩)
      · cases hf
      · have him : i < m := by
          have := getElem?_some_lt hstop
          rw [List.length_take] at this
          omega
        rw [List.getElem?_take_of_lt him] at hstop
        rcases Nat.lt_trichotomy i j with h1 | h1 | h1
        · exact hafter j h1
            (by rw [List.getElem?_take_of_lt hjm]; exact hj)
        · subst h1
          rw [hj] at hstop
          cases hstop
        · exact hbetween i h1 him hstop
    show consoleFlag false (es.take m) = false
    cases hcf : consoleFlag false (es.take m) with
    | false => rfl
    | true => exact absurd hcf hne

/-- Witness for C8 on the concrete trace: a "stop" line, then two
get-and-clear calls. -/
theorem c8_get_and_clear_witness :
    ([ConsoleEvent.input "stop", ConsoleEvent.readClear,
        ConsoleEvent.readClear][0]? = some (ConsoleEvent.input "stop")) ∧
    ([ConsoleEvent.input "stop", ConsoleEvent.readClear,
        ConsoleEvent.readClear][1]? = some ConsoleEvent.readClear) ∧
    ([ConsoleEvent.input "stop", ConsoleEvent.readClear,
        ConsoleEvent.readClear][2]? = some ConsoleEvent.readClear) ∧
    interruptedOutputAt [ConsoleEvent.input "stop", ConsoleEvent.readClear,
      ConsoleEvent.readClear] 1 = true ∧
    interruptedOutputAt [ConsoleEvent.input "stop", ConsoleEvent.readClear,
      ConsoleEvent.readClear] 2 = false :=
  ⟨rfl, rfl, rfl,
    c8_get_and_clear.1 [ConsoleEvent.input "stop", ConsoleEvent.readClear,
      ConsoleEvent.readClear] 0 1 rfl (by decide) rfl
      (fun k h1 h2 => absurd h1 (by omega)),
    c8_get_and_clear.2 [ConsoleEvent.input "stop", ConsoleEvent.readClear,
      ConsoleEvent.readClear] 1 2 rfl (by decide) rfl
      (fun k h1 h2 => absurd h1 (by omega))⟩

/-- C10: the newline branch allocates room for the buffered tail plus
only the first line of the input but copies the whole input; the copy
stays within the allocation exactly when the text after the first
newline is empty — i.e. when the first newline is the last character —
and for every input with text after its first newline the copy extends
past the end of the allocation, whatever the buffered length. -/
theorem c10_copy_overflows (buf_len : Nat) (s : List Char)
    (pq : List Char × List Char) (h : strchr_nl s = some pq) :
    (cstdout_newline_copy_extent buf_len s.length ≤
        cstdout_newline_alloc buf_len pq.1.length ↔ pq.2 = []) ∧
    (pq.2 ≠ [] →
      cstdout_newline_alloc buf_len pq.1.length <
        cstdout_newline_copy_extent buf_len s.length) := by
  obtain ⟨hdec, -⟩ := strchr_nl_some_decomp h
  have hlen : s.length = pq.1.length + 1 + pq.2.length := by
    rw [hdec]
    simp
    omega
  unfold cstdout_newline_copy_extent cstdout_newline_alloc
  constructor
  · constructor
    · intro hle
      exact List.length_eq_zero.mp (by omega)
    · intro he
      have h0 : pq.2.length = 0 := by rw [he]; rfl
      omega
  · intro hne
    have h0 : 0 < pq.2.length := List.length_pos.mpr hne
    omega

/-- Witness for C10 at the concrete write `"a", newline, "b"` against
an empty buffer: the allocation holds 3 bytes but the copy writes 4. -/
theorem c10_copy_overflows_witness :
    strchr_nl ['a', '\n', 'b'] = some (['a'], ['b']) ∧
    ((cstdout_newline_copy_extent 0 (['a', '\n', 'b'] : List Char).length ≤
        cstdout_newline_alloc 0
          ((['a'], ['b']) : List Char × List Char).1.length ↔
          ((['a'], ['b']) : List Char × List Char).2 = []) ∧
      (((['a'], ['b']) : List Char × List Char).2 ≠ [] →
        cstdout_newline_alloc 0
            ((['a'], ['b']) : List Char × List Char).1.length <
          cstdout_newline_copy_extent 0
            (['a', '\n', 'b'] : List Char).length)) :=
  ⟨by decide, c10_copy_overflows 0 ['a', '\n', 'b'] (['a'], ['b'])
    (by decide)⟩

end Cozmonaut

